import Mathlib

/-!
Verification of the response-merge core of carbonapi's zipper `types` package.

The Go source (`src/unnamed/part_000`) defines four response-aggregate types
(tag, info, find, fetch) with pairwise `Merge` operations and a per-series
reconciler `MergeFetchResponses`.  This file embeds those operations as pure
Lean functions: Go pointer mutation becomes explicit state passing (each merge
returns the updated records), Go `nil` pointers/slices become `Option`, Go
float64 sample values become `Option ℚ` (`none` is the not-a-number gap marker;
the merge logic only ever tests `math.IsNaN` and copies values, so this is
faithful), and Go maps become association lists / lookup functions.
-/

namespace Carbonapi

/-- Modelled from the spec: the sentinel error `ErrResponseStartTimeMismatch`
(declared elsewhere in the repository's `types` package, not under `src/`),
the only error value the per-series reconciler produces. -/
inductive MergeError where
  | responseStartTimeMismatch
deriving DecidableEq, Repr

/-- Modelled from the spec: `ErrorAggregate` (the repository's
`zipper/errors.Errors`, not under `src/`): an ordered sequence of recorded
errors plus a boolean `HaveFatalErrors` flag. -/
structure Errors where
  errors : List MergeError
  HaveFatalErrors : Bool
deriving DecidableEq, Repr

/-- The empty error aggregate (what `new(errors.Errors)` produces). -/
def Errors.empty : Errors := ⟨[], false⟩

/-- Modelled from the spec: `Merge(other)` appends the other's errors and ORs
the fatal flags; a `nil` other is a no-op. -/
def Errors.merge (e : Errors) (other : Option Errors) : Errors :=
  match other with
  | none => e
  | some o => ⟨e.errors ++ o.errors, e.HaveFatalErrors || o.HaveFatalErrors⟩

/-- Modelled from the spec: `FromErr` constructs a one-element aggregate from a
single error, or an empty aggregate if the error is nil; it does not by itself
set the fatal flag (fatality is attached by the caller's classification). -/
def Errors.FromErr (err : Option MergeError) : Errors :=
  match err with
  | none => Errors.empty
  | some e => ⟨[e], false⟩

/-! ## Fetch responses and the per-series reconciler -/

/-- The fields of `protov3.FetchResponse` that the merge logic reads or
writes.  Sample values are `Option ℚ`: `none` models a NaN gap. -/
structure FetchResponse where
  Name : String
  StartTime : Int
  StopTime : Int
  StepTime : Int
  ConsolidationFunc : String
  XFilesFactor : ℚ
  RequestStartTime : Int
  RequestStopTime : Int
  Values : List (Option ℚ)
  AppliedFunctions : List String
deriving DecidableEq, Repr, Inhabited

/-- `swapFetchResponses`: exchanges Name, StartTime, StepTime,
ConsolidationFunc, XFilesFactor, Values, AppliedFunctions and StopTime between
the two records.  (`RequestStartTime` and `RequestStopTime` are not listed in
the source and hence stay with their original record.) -/
def swapFetchResponses (m1 m2 : FetchResponse) : FetchResponse × FetchResponse :=
  ({ m1 with
      Name := m2.Name, StartTime := m2.StartTime, StepTime := m2.StepTime,
      ConsolidationFunc := m2.ConsolidationFunc, XFilesFactor := m2.XFilesFactor,
      Values := m2.Values, AppliedFunctions := m2.AppliedFunctions,
      StopTime := m2.StopTime },
   { m2 with
      Name := m1.Name, StartTime := m1.StartTime, StepTime := m1.StepTime,
      ConsolidationFunc := m1.ConsolidationFunc, XFilesFactor := m1.XFilesFactor,
      Values := m1.Values, AppliedFunctions := m1.AppliedFunctions,
      StopTime := m1.StopTime })

/-- The gap-fill loop of `mergeFetchResponsesWithEqualStepTimes`:
`for i < len v2, if IsNaN v1[i] then v1[i] = v2[i]`.  The callers guarantee
`v2.length ≤ v1.length`. -/
def gapFill : List (Option ℚ) → List (Option ℚ) → List (Option ℚ)
  | v1, [] => v1
  | [], _ => []
  | x :: v1, y :: v2 => (match x with | none => y | some q => some q) :: gapFill v1 v2

/-- `mergeFetchResponsesWithEqualStepTimes`: fails on differing (data-window)
start times; otherwise swaps so the record with at least as many samples is the
base, then fills the base's NaN gaps from the other record.  Returns the two
updated records and the error. -/
def mergeFetchResponsesWithEqualStepTimes (m1 m2 : FetchResponse) (uuid : String) :
    FetchResponse × FetchResponse × Option MergeError :=
  let _ := uuid
  if m1.StartTime ≠ m2.StartTime then
    (m1, m2, some MergeError.responseStartTimeMismatch)
  else
    let p := if m1.Values.length < m2.Values.length then swapFetchResponses m1 m2 else (m1, m2)
    ({ p.1 with Values := gapFill p.1.Values p.2.Values }, p.2, none)

/-- `mergeFetchResponsesWithUnequalStepTimes`: swaps so the record with the
smaller step time becomes the base, logs a warning (invisible in the model) and
succeeds without touching any value sequence. -/
def mergeFetchResponsesWithUnequalStepTimes (m1 m2 : FetchResponse) (uuid : String) :
    FetchResponse × FetchResponse × Option MergeError :=
  let _ := uuid
  let p := if m1.StepTime > m2.StepTime then swapFetchResponses m1 m2 else (m1, m2)
  (p.1, p.2, none)

/-- `MergeFetchResponses`: request-framing guard, then dispatch on step-time
equality; the returned `*errors.Errors` is `errors.FromErr(err)`. -/
def MergeFetchResponses (m1 m2 : FetchResponse) (uuid : String) :
    FetchResponse × FetchResponse × Errors :=
  let r :=
    if m1.RequestStartTime ≠ m2.RequestStartTime then
      (m1, m2, some MergeError.responseStartTimeMismatch)
    else if m1.StepTime = m2.StepTime then
      mergeFetchResponsesWithEqualStepTimes m1 m2 uuid
    else
      mergeFetchResponsesWithUnequalStepTimes m1 m2 uuid
  (r.1, r.2.1, Errors.FromErr r.2.2)

/-! ## Tag responses -/

/-- `ServerTagResponse`: `Response` is a Go `[]string` (nil distinguishable
from empty), `Err` a possibly-nil `*errors.Errors`. -/
structure ServerTagResponse where
  Server : String
  Response : Option (List String)
  Err : Option Errors
deriving DecidableEq, Repr

/-- `ServerTagResponse.Merge`: merges the error aggregates into the receiver;
when the second's response is nil, returns the receiver's merged aggregate;
otherwise appends every name of the second not present in the receiver's
original name list (the membership set is built once, before the loop) and
returns nil. -/
def ServerTagResponse.Merge (first second : ServerTagResponse) :
    ServerTagResponse × Option Errors :=
  let err := (first.Err.getD Errors.empty).merge second.Err
  let first1 := { first with Err := some err }
  match second.Response with
  | none => (first1, some err)
  | some resp2 =>
      let resp1 := first1.Response.getD []
      let merged := resp1 ++ resp2.filter (fun v => decide (v ∉ resp1))
      ({ first1 with Response := some merged }, none)

/-! ## Info responses -/

/-- Modelled from the spec: the per-metric metadata record
(`protov3.MultiMetricsInfoResponse`, defined by the external protocol) is
opaque to the merge logic beyond key identity; an abstract payload suffices. -/
structure MetricsInfo where
  payload : Int
deriving DecidableEq, Repr

/-- A Go `map[string]MetricsInfo` modelled as an association list whose keys
are unique (a Go map can hold each key at most once). -/
def InfoMap := List (String × MetricsInfo)
deriving DecidableEq, Repr

/-- Map lookup (first matching key). -/
def mapGet : List (String × MetricsInfo) → String → Option MetricsInfo
  | [], _ => none
  | p :: rest, k => if p.1 = k then some p.2 else mapGet rest k

/-- Map store `m[k] = v`: replace the binding of `k` if present, else append. -/
def mapSet (m : List (String × MetricsInfo)) (k : String) (v : MetricsInfo) :
    List (String × MetricsInfo) :=
  if (mapGet m k).isSome then
    m.map (fun p => if p.1 = k then (k, v) else p)
  else
    m ++ [(k, v)]

/-- The inner `protov3.ZipperInfoResponse`: a metric-name → metadata map. -/
structure ZipperInfoResponse where
  Info : List (String × MetricsInfo)
deriving DecidableEq, Repr

/-- Modelled from the spec: `Stats` (this repository's type, not under `src/`)
is an opaque additive counter aggregate; a single integer counter suffices for
its additive `Merge` contract. -/
structure ServerInfoResponse where
  Server : String
  Response : Option ZipperInfoResponse
  Stats : Option Int
  Err : Option Errors
deriving DecidableEq, Repr

/-- `ServerInfoResponse.Merge`: merges stats and errors unconditionally; when
the second's response is nil, returns the merged aggregate; otherwise stores
every key/value of the second's map into the receiver's map and returns nil. -/
def ServerInfoResponse.Merge (first second : ServerInfoResponse) :
    ServerInfoResponse × Option Errors :=
  let first1 :=
    match second.Stats with
    | some s => { first with Stats := some (first.Stats.getD 0 + s) }
    | none => first
  let err := (first1.Err.getD Errors.empty).merge second.Err
  let first2 := { first1 with Err := some err }
  match second.Response with
  | none => (first2, some err)
  | some resp2 =>
      let info1 := (first2.Response.map ZipperInfoResponse.Info).getD []
      let merged := resp2.Info.foldl (fun acc p => mapSet acc p.1 p.2) info1
      ({ first2 with Response := some ⟨merged⟩ }, none)

/-! ## Find responses -/

/-- The fields of a `protov3.GlobMatch` the merge reads: the match path (and an
is-leaf flag carried along opaquely). -/
structure GlobMatch where
  Path : String
  IsLeaf : Bool
deriving DecidableEq, Repr

/-- A `protov3.GlobResponse`: a metric-name entry with its match list. -/
structure GlobMetric where
  Name : String
  Matches : List GlobMatch
deriving DecidableEq, Repr

/-- `protov3.MultiGlobResponse`. -/
structure MultiGlobResponse where
  Metrics : List GlobMetric
deriving DecidableEq, Repr

/-- The `seenMetrics` index: the loop `seenMetrics[m.Name] = i` over the first
response's metrics builds a Go map in which a later index overwrites an
earlier one, so the map finally holds the LAST index carrying each name;
stated recursively, an occurrence in the tail (shifted by one) wins over a
matching head. -/
def seenMetricsIdx : List GlobMetric → String → Option Nat
  | [], _ => none
  | e :: rest, name =>
      match seenMetricsIdx rest name with
      | some j => some (j + 1)
      | none => if e.Name = name then some 0 else none

/-- The initial `seenMatches` set: every `name ++ "." ++ path` key of the first
response's entries. -/
def initSeen (ms : List GlobMetric) : List String :=
  ms.foldl (fun acc m => acc ++ m.Matches.map (fun mm => m.Name ++ "." ++ mm.Path)) []

/-- `first.Response.Metrics[i].Matches = append(..., mm)`. -/
def appendMatchAt : List GlobMetric → Nat → GlobMatch → List GlobMetric
  | [], _, _ => []
  | e :: rest, 0, mm => { e with Matches := e.Matches ++ [mm] } :: rest
  | e :: rest, Nat.succ n, mm => e :: appendMatchAt rest n mm

/-- `first.Response.Metrics[i].Name` (the index is always in range in the
source; out of range defaults to the empty string here). -/
def nameAt (ms : List GlobMetric) (i : Nat) : String :=
  ((ms.get? i).map GlobMetric.Name).getD ""

/-- The inner match loop of `ServerFindResponse.Merge` for one second-response
entry whose name was found at index `i`: append each match whose
`name ++ "." ++ path` key is unseen, recording the key. -/
def findMatchLoop (ms : List GlobMetric) (seen : List String) (i : Nat) :
    List GlobMatch → List GlobMetric × List String
  | [] => (ms, seen)
  | mm :: rest =>
      let key := nameAt ms i ++ "." ++ mm.Path
      if key ∈ seen then findMatchLoop ms seen i rest
      else findMatchLoop (appendMatchAt ms i mm) (key :: seen) i rest

/-- The outer loop of `ServerFindResponse.Merge` over the second response's
entries: unknown names are appended whole, known names get their novel matches
appended at the indexed entry. -/
def findMetricsLoop (idx : String → Option Nat) :
    List GlobMetric × List String → List GlobMetric → List GlobMetric × List String
  | st, [] => st
  | (ms, seen), m :: rest =>
      match idx m.Name with
      | none => findMetricsLoop idx (ms ++ [m], seen) rest
      | some i => findMetricsLoop idx (findMatchLoop ms seen i m.Matches) rest

/-- The metric-merging core of `ServerFindResponse.Merge` on the two metric
lists. -/
def mergeGlobMetrics (fms sms : List GlobMetric) : List GlobMetric :=
  (findMetricsLoop (seenMetricsIdx fms) (fms, initSeen fms) sms).1

structure ServerFindResponse where
  Server : String
  Response : Option MultiGlobResponse
  Stats : Option Int
  Err : Option Errors
deriving DecidableEq, Repr

/-- `ServerFindResponse.Merge`: merges stats and errors unconditionally; when
the second's response is nil, returns the merged aggregate; otherwise merges
the metric lists and returns nil. -/
def ServerFindResponse.Merge (first second : ServerFindResponse) :
    ServerFindResponse × Option Errors :=
  let first1 :=
    match second.Stats with
    | some s => { first with Stats := some (first.Stats.getD 0 + s) }
    | none => first
  let err := (first1.Err.getD Errors.empty).merge second.Err
  let first2 := { first1 with Err := some err }
  match second.Response with
  | none => (first2, some err)
  | some resp2 =>
      let fms := (first2.Response.map MultiGlobResponse.Metrics).getD []
      ({ first2 with Response := some ⟨mergeGlobMetrics fms resp2.Metrics⟩ }, none)

/-! ## The fetch aggregate merge -/

/-- `fetchResponseCoordinates`: the lookup key (name, requested start,
requested stop). -/
structure FetchCoordinates where
  name : String
  from_ : Int
  until_ : Int
deriving DecidableEq, Repr

/-- `coordinates(r)`. -/
def coordinates (r : FetchResponse) : FetchCoordinates :=
  ⟨r.Name, r.RequestStartTime, r.RequestStopTime⟩

/-- The `metrics` index of `ServerFetchResponse.Merge`, built once over the
first response's metrics before the loop (later indices overwrite earlier
ones, as Go map stores do). -/
def buildCoordIdx (ms : List FetchResponse) (c : FetchCoordinates) : Option Nat :=
  ms.enum.foldl (fun acc p => if coordinates p.2 = c then some p.1 else acc) none

/-- In-place update `ms[j] = x`. -/
def setAt : List FetchResponse → Nat → FetchResponse → List FetchResponse
  | [], _, _ => []
  | _ :: rest, 0, x => x :: rest
  | y :: rest, Nat.succ n, x => y :: setAt rest n x

/-- The series loop of `ServerFetchResponse.Merge`: for each second-response
series, a key hit runs the per-series reconciler on the indexed first-response
series and the second-response series (both records are updated in place; the
reconciler's returned error aggregate is dropped — the source reads
`// TODO: Normal error handling` and merely `continue`s); a key miss appends
the series to the first response. -/
def fetchMergeLoop (idx : FetchCoordinates → Option Nat) (uuid : String) :
    List FetchResponse → List FetchResponse → List FetchResponse × List FetchResponse
  | fms, [] => (fms, [])
  | fms, m :: rest =>
      match idx (coordinates m) with
      | some j =>
          let r := MergeFetchResponses (fms.getD j default) m uuid
          let p := fetchMergeLoop idx uuid (setAt fms j r.1) rest
          (p.1, r.2.1 :: p.2)
      | none =>
          let p := fetchMergeLoop idx uuid (fms ++ [m]) rest
          (p.1, m :: p.2)

/-- `ServerFetchResponse`: `Response` holds the `protov3.MultiFetchResponse`
metric list (nil pointer as `none`). -/
structure ServerFetchResponse where
  Server : String
  Response : Option (List FetchResponse)
  Stats : Option Int
  Err : Option Errors
deriving DecidableEq, Repr

/-- `ServerFetchResponse.Merge`: adopt the second's server name if unset,
merge stats, merge error aggregates; stop before touching any series data if
the merged aggregate is fatal or the second's response is nil; otherwise run
the series loop.  Returns both updated responses (the reconciler mutates the
second response's records too). -/
def ServerFetchResponse.Merge (first second : ServerFetchResponse) (uuid : String) :
    ServerFetchResponse × ServerFetchResponse :=
  let first1 :=
    if first.Server = "" ∧ second.Server ≠ "" then { first with Server := second.Server }
    else first
  let first2 :=
    match second.Stats with
    | some s => { first1 with Stats := some (first1.Stats.getD 0 + s) }
    | none => first1
  let err := (first2.Err.getD Errors.empty).merge second.Err
  let first3 := { first2 with Err := some err }
  if err.HaveFatalErrors then (first3, second)
  else
    match second.Response with
    | none => (first3, second)
    | some sms =>
        let fms := first3.Response.getD []
        let p := fetchMergeLoop (buildCoordIdx fms) uuid fms sms
        ({ first3 with Response := some p.1 }, { second with Response := some p.2 })

/-! ## Helper lemmas -/

theorem gapFill_length (v1 v2 : List (Option ℚ)) : (gapFill v1 v2).length = v1.length := by
  induction v1 generalizing v2 with
  | nil => cases v2 <;> simp [gapFill]
  | cons x v1t ih =>
      cases v2 with
      | nil => simp [gapFill]
      | cons y v2t => simp [gapFill, ih]

theorem gapFill_getD (v1 v2 : List (Option ℚ)) (i : Nat) (h : i < v1.length) :
    (gapFill v1 v2).getD i none =
      if v1.getD i none = none ∧ i < v2.length then v2.getD i none
      else v1.getD i none := by
  induction v1 generalizing v2 i with
  | nil => simp at h
  | cons x v1t ih =>
      cases v2 with
      | nil => simp [gapFill]
      | cons y v2t =>
          cases i with
          | zero =>
              cases x with
              | none => simp [gapFill]
              | some q => simp [gapFill]
          | succ n =>
              have hn : n < v1t.length := by simpa using h
              simp only [gapFill, List.getD_cons_succ, List.length_cons]
              rw [ih v2t n hn]
              simp [Nat.succ_lt_succ_iff]

theorem gapFill_self (v : List (Option ℚ)) : gapFill v v = v := by
  induction v with
  | nil => rfl
  | cons x vt ih => cases x <;> simp [gapFill, ih]

theorem mergeEqual_of_startEq (m1 m2 : FetchResponse) (uuid : String)
    (hstart : m1.StartTime = m2.StartTime) :
    mergeFetchResponsesWithEqualStepTimes m1 m2 uuid =
      (let p := if m1.Values.length < m2.Values.length then swapFetchResponses m1 m2
                else (m1, m2)
       ({ p.1 with Values := gapFill p.1.Values p.2.Values }, p.2, none)) := by
  unfold mergeFetchResponsesWithEqualStepTimes
  simp [hstart]

theorem mergeFetch_dispatch_equal (m1 m2 : FetchResponse) (uuid : String)
    (hreq : m1.RequestStartTime = m2.RequestStartTime)
    (hstep : m1.StepTime = m2.StepTime) :
    MergeFetchResponses m1 m2 uuid =
      ((mergeFetchResponsesWithEqualStepTimes m1 m2 uuid).1,
       (mergeFetchResponsesWithEqualStepTimes m1 m2 uuid).2.1,
       Errors.FromErr (mergeFetchResponsesWithEqualStepTimes m1 m2 uuid).2.2) := by
  unfold MergeFetchResponses
  simp [hreq, hstep]

theorem mergeFetch_dispatch_unequal (m1 m2 : FetchResponse) (uuid : String)
    (hreq : m1.RequestStartTime = m2.RequestStartTime)
    (hstep : m1.StepTime ≠ m2.StepTime) :
    MergeFetchResponses m1 m2 uuid =
      ((mergeFetchResponsesWithUnequalStepTimes m1 m2 uuid).1,
       (mergeFetchResponsesWithUnequalStepTimes m1 m2 uuid).2.1,
       Errors.FromErr (mergeFetchResponsesWithUnequalStepTimes m1 m2 uuid).2.2) := by
  unfold MergeFetchResponses
  simp [hreq, hstep]

/-! ## C1: equal-step gap-fill merge -/

/-- C1: for `MergeFetchResponses` on records with equal `RequestStartTime`,
`StepTime` and `StartTime`, the call succeeds with no recorded error, and the
resulting first record's value sequence is that of whichever input had at
least as many sample points (the base), with each NaN (`none`) value at an
index covered by the shorter sequence replaced by the other record's value at
that index; values present in the base are never overwritten, and merging a
record with an identical copy of itself leaves it unchanged. -/
theorem mergeFetch_equalStep_gapFill (m1 m2 : FetchResponse) (uuid : String)
    (hreq : m1.RequestStartTime = m2.RequestStartTime)
    (hstep : m1.StepTime = m2.StepTime)
    (hstart : m1.StartTime = m2.StartTime) :
    ((MergeFetchResponses m1 m2 uuid).2.2 = Errors.empty) ∧
    ((MergeFetchResponses m1 m2 uuid).1.Values.length =
      (if m1.Values.length < m2.Values.length then m2 else m1).Values.length) ∧
    (∀ i, i < (if m1.Values.length < m2.Values.length then m2 else m1).Values.length →
      (MergeFetchResponses m1 m2 uuid).1.Values.getD i none =
        (if (if m1.Values.length < m2.Values.length then m2 else m1).Values.getD i none = none
            ∧ i < (if m1.Values.length < m2.Values.length then m1 else m2).Values.length
         then (if m1.Values.length < m2.Values.length then m1 else m2).Values.getD i none
         else (if m1.Values.length < m2.Values.length then m2 else m1).Values.getD i none)) ∧
    (m1 = m2 → (MergeFetchResponses m1 m2 uuid).1 = m1) := by
  rw [mergeFetch_dispatch_equal m1 m2 uuid hreq hstep,
      mergeEqual_of_startEq m1 m2 uuid hstart]
  by_cases hlen : m1.Values.length < m2.Values.length
  · simp only [hlen, if_true]
    refine ⟨rfl, ?_, ?_, ?_⟩
    · simp [swapFetchResponses, gapFill_length]
    · intro i hi
      simp only [swapFetchResponses] at hi ⊢
      exact gapFill_getD m2.Values m1.Values i hi
    · intro heq
      exact absurd hlen (by simp [heq])
  · simp only [hlen, if_false]
    refine ⟨rfl, ?_, ?_, ?_⟩
    · simp [gapFill_length]
    · intro i hi
      exact gapFill_getD m1.Values m2.Values i hi
    · intro heq
      subst heq
      simp [gapFill_self]

/-- The spec's gap-fill example record a=[1, NaN, 3]. -/
def exFetchA : FetchResponse :=
  ⟨"m", 0, 180, 60, "avg", 0, 0, 180, [some 1, none, some 3], []⟩

/-- The spec's gap-fill example record b=[NaN, 2, NaN]. -/
def exFetchB : FetchResponse :=
  ⟨"m", 0, 180, 60, "avg", 0, 0, 180, [none, some 2, none], []⟩

/-- Witness for C1 at the spec's example: a=[1, NaN, 3] merged with
b=[NaN, 2, NaN] under equal start/step succeeds, and the merged value
sequence is [1, 2, 3]. -/
theorem mergeFetch_equalStep_gapFill_witness :
    exFetchA.RequestStartTime = exFetchB.RequestStartTime ∧
    exFetchA.StepTime = exFetchB.StepTime ∧
    exFetchA.StartTime = exFetchB.StartTime ∧
    ((MergeFetchResponses exFetchA exFetchB "id").2.2 = Errors.empty) ∧
    (MergeFetchResponses exFetchA exFetchB "id").1.Values = [some 1, some 2, some 3] := by
  refine ⟨rfl, rfl, rfl,
    (mergeFetch_equalStep_gapFill exFetchA exFetchB "id" rfl rfl rfl).1, ?_⟩
  rfl

/-! ## C3: a fatal merged error aggregate stops the fetch merge -/

/-- C3: if, after merging the two error aggregates, the merged aggregate has
`HaveFatalErrors` set, `ServerFetchResponse.Merge` returns with the first
response's series data completely unchanged. -/
theorem serverFetch_fatal_leaves_series (first second : ServerFetchResponse)
    (uuid : String)
    (h : ((first.Err.getD Errors.empty).merge second.Err).HaveFatalErrors = true) :
    (ServerFetchResponse.Merge first second uuid).1.Response = first.Response ∧
    (ServerFetchResponse.Merge first second uuid).2 = second := by
  unfold ServerFetchResponse.Merge
  by_cases hs : first.Server = "" ∧ second.Server ≠ ""
  all_goals cases hstat : second.Stats
  all_goals simp [hs, hstat, h]

/-- Witness for C3: a second response carrying a fatal aggregate leaves the
first response's single series untouched. -/
theorem serverFetch_fatal_leaves_series_witness :
    (((some Errors.empty : Option Errors).getD Errors.empty).merge
        (some ⟨[], true⟩)).HaveFatalErrors = true ∧
    (ServerFetchResponse.Merge
        ⟨"A", some [exFetchA], none, some Errors.empty⟩
        ⟨"B", some [exFetchB], none, some ⟨[], true⟩⟩ "id").1.Response =
      some [exFetchA] :=
  ⟨rfl, (serverFetch_fatal_leaves_series
    ⟨"A", some [exFetchA], none, some Errors.empty⟩
    ⟨"B", some [exFetchB], none, some ⟨[], true⟩⟩ "id" rfl).1⟩

/-! ## C4: unequal step times -/

/-- C4 (amended): for `MergeFetchResponses` on records with equal
`RequestStartTime` but unequal `StepTime`, the call succeeds with an empty
error aggregate and the resulting first record is exactly the smaller-step
(finer-resolution) record's value sequence and metadata — except for the
requested start/stop time fields, which `swapFetchResponses` does not
exchange, so the result keeps the first record's own requested window. -/
theorem mergeFetch_unequalStep_finer_wins (m1 m2 : FetchResponse) (uuid : String)
    (hreq : m1.RequestStartTime = m2.RequestStartTime)
    (hstep : m1.StepTime ≠ m2.StepTime) :
    ((MergeFetchResponses m1 m2 uuid).2.2 = Errors.empty) ∧
    ((MergeFetchResponses m1 m2 uuid).1 =
      { (if m2.StepTime < m1.StepTime then m2 else m1) with
          RequestStartTime := m1.RequestStartTime,
          RequestStopTime := m1.RequestStopTime }) := by
  rw [mergeFetch_dispatch_unequal m1 m2 uuid hreq hstep]
  unfold mergeFetchResponsesWithUnequalStepTimes
  by_cases hgt : m2.StepTime < m1.StepTime
  · simp [hgt, swapFetchResponses, Errors.FromErr, Errors.empty]
  · simp [hgt, Errors.FromErr, Errors.empty]

/-- A coarse-resolution record (step 60, requested stop 100). -/
def exCoarse : FetchResponse :=
  ⟨"m", 0, 180, 60, "avg", 0, 0, 100, [some 1], []⟩

/-- A fine-resolution record (step 10, requested stop 200). -/
def exFine : FetchResponse :=
  ⟨"m", 0, 180, 10, "max", 1, 0, 200, [some 2, some 3], []⟩

/-- C4 counterexample: under equal `RequestStartTime` and unequal `StepTime`,
the merged first record is NOT exactly the smaller-step record's full
metadata: its requested stop time stays the coarse record's own (100), not the
fine record's (200). -/
theorem mergeFetch_unequalStep_cex :
    exCoarse.RequestStartTime = exFine.RequestStartTime ∧
    exCoarse.StepTime ≠ exFine.StepTime ∧
    exFine.StepTime < exCoarse.StepTime ∧
    (MergeFetchResponses exCoarse exFine "id").1.Values = exFine.Values ∧
    (MergeFetchResponses exCoarse exFine "id").1.RequestStopTime ≠
      exFine.RequestStopTime := by
  refine ⟨rfl, by decide, by decide, by decide, by decide⟩

/-- Witness for C4 (amended) at the coarse/fine pair. -/
theorem mergeFetch_unequalStep_finer_wins_witness :
    ((MergeFetchResponses exCoarse exFine "id").2.2 = Errors.empty) ∧
    ((MergeFetchResponses exCoarse exFine "id").1 =
      { (if exFine.StepTime < exCoarse.StepTime then exFine else exCoarse) with
          RequestStartTime := exCoarse.RequestStartTime,
          RequestStopTime := exCoarse.RequestStopTime }) :=
  mergeFetch_unequalStep_finer_wins exCoarse exFine "id" rfl (by decide)

/-! ## C5: the equal-step swap -/

/-- C5 (amended): in the equal-step per-series merge, when the first record
has fewer sample points, the swap hands every swapped field — name, data
start/stop/step time, consolidation function, x-files-factor, applied-function
list — to the longer record, and the result's values are the longer record's
values gap-filled from the shorter; the requested start and stop times are NOT
exchanged, so the result keeps the first record's own requested window. -/
theorem mergeEqualStep_swap_fields (m1 m2 : FetchResponse) (uuid : String)
    (hstart : m1.StartTime = m2.StartTime)
    (hlen : m1.Values.length < m2.Values.length) :
    ((mergeFetchResponsesWithEqualStepTimes m1 m2 uuid).2.2 = none) ∧
    ((mergeFetchResponsesWithEqualStepTimes m1 m2 uuid).1 =
      { m2 with RequestStartTime := m1.RequestStartTime,
                RequestStopTime := m1.RequestStopTime,
                Values := gapFill m2.Values m1.Values }) := by
  rw [mergeEqual_of_startEq m1 m2 uuid hstart]
  simp [hlen, swapFetchResponses]

/-- A short record with its own requested window (5, 100). -/
def exShort : FetchResponse :=
  ⟨"s", 0, 60, 60, "avg", 0, 5, 100, [some 1], []⟩

/-- A longer record with a different requested window (7, 200). -/
def exLong : FetchResponse :=
  ⟨"l", 0, 180, 60, "max", 1, 7, 200, [some 4, some 5, some 6], []⟩

/-- C5 counterexample: the swap does not exchange the requested start time —
after the equal-step merge with the shorter first record, the result's
requested start time is still the shorter record's own (5), not the longer
record's (7), so not every metadata field of the result comes from the longer
record. -/
theorem mergeEqualStep_swap_cex :
    exShort.StartTime = exLong.StartTime ∧
    exShort.Values.length < exLong.Values.length ∧
    (mergeFetchResponsesWithEqualStepTimes exShort exLong "id").1.RequestStartTime ≠
      exLong.RequestStartTime ∧
    (mergeFetchResponsesWithEqualStepTimes exShort exLong "id").1.RequestStopTime ≠
      exLong.RequestStopTime := by
  refine ⟨rfl, by decide, by decide, by decide⟩

/-- Witness for C5 (amended) at the short/long pair. -/
theorem mergeEqualStep_swap_fields_witness :
    ((mergeFetchResponsesWithEqualStepTimes exShort exLong "id").2.2 = none) ∧
    ((mergeFetchResponsesWithEqualStepTimes exShort exLong "id").1 =
      { exLong with RequestStartTime := exShort.RequestStartTime,
                    RequestStopTime := exShort.RequestStopTime,
                    Values := gapFill exLong.Values exShort.Values }) :=
  mergeEqualStep_swap_fields exShort exLong "id" rfl (by decide)

/-! ## C10: the reconciler mutates its second argument -/

/-- C10 (amended): whenever a swap occurs (strictly fewer sample points under
equal step times, or the strictly larger step time under unequal step times),
the second (donor) record afterwards holds the first record's original
content in every swapped field; the requested start and stop times are not
exchanged, so the donor keeps its own requested window. -/
theorem reconciler_mutates_donor (m1 m2 : FetchResponse) (uuid : String) :
    (m1.StartTime = m2.StartTime → m1.Values.length < m2.Values.length →
      (mergeFetchResponsesWithEqualStepTimes m1 m2 uuid).2.1 =
        { m1 with RequestStartTime := m2.RequestStartTime,
                  RequestStopTime := m2.RequestStopTime }) ∧
    (m2.StepTime < m1.StepTime →
      (mergeFetchResponsesWithUnequalStepTimes m1 m2 uuid).2.1 =
        { m1 with RequestStartTime := m2.RequestStartTime,
                  RequestStopTime := m2.RequestStopTime }) := by
  constructor
  · intro hstart hlen
    rw [mergeEqual_of_startEq m1 m2 uuid hstart]
    simp [hlen, swapFetchResponses]
  · intro hgt
    unfold mergeFetchResponsesWithUnequalStepTimes
    simp [hgt, swapFetchResponses]

/-- C10 counterexample: the donor record does not end up holding the first
record's entire content — after an equal-step swap its requested stop time is
still its own (200), not the first record's (100). -/
theorem reconciler_mutates_donor_cex :
    exShort.StartTime = exLong.StartTime ∧
    exShort.Values.length < exLong.Values.length ∧
    (mergeFetchResponsesWithEqualStepTimes exShort exLong "id").2.1.Name =
      exShort.Name ∧
    (mergeFetchResponsesWithEqualStepTimes exShort exLong "id").2.1.RequestStopTime ≠
      exShort.RequestStopTime := by
  refine ⟨rfl, by decide, by decide, by decide⟩

/-- Witness for C10 (amended), exercising both swap scenarios. -/
theorem reconciler_mutates_donor_witness :
    ((mergeFetchResponsesWithEqualStepTimes exShort exLong "id").2.1 =
      { exShort with RequestStartTime := exLong.RequestStartTime,
                     RequestStopTime := exLong.RequestStopTime }) ∧
    ((mergeFetchResponsesWithUnequalStepTimes exCoarse exFine "id").2.1 =
      { exCoarse with RequestStartTime := exFine.RequestStartTime,
                      RequestStopTime := exFine.RequestStopTime }) :=
  ⟨(reconciler_mutates_donor exShort exLong "id").1 rfl (by decide),
   (reconciler_mutates_donor exCoarse exFine "id").2 (by decide)⟩

/-! ## C2: the fetch-aggregate merge drops per-series reconciler errors -/

/-- First fetch aggregate: one series named "m", data window starting at 0. -/
def exFetchFirst : ServerFetchResponse :=
  ⟨"A", some [⟨"m", 0, 300, 60, "avg", 0, 0, 300, [some 1], []⟩], none,
   some Errors.empty⟩

/-- Second fetch aggregate: a series sharing the ("m", 0, 300) key of the
first aggregate's series but with a different data-window start time (60),
plus an unrelated sibling series. -/
def exFetchSecond : ServerFetchResponse :=
  ⟨"B", some [⟨"m", 60, 300, 60, "avg", 0, 0, 300, [some 2], []⟩,
              ⟨"sib", 0, 300, 60, "avg", 0, 0, 300, [some 3], []⟩], none,
   some Errors.empty⟩

/-- C2 (evaluation at the failing input): the per-series reconciler does
return a start-time-mismatch error for the key-matched pair, and the pair is
not combined while the sibling series is still appended — but
`ServerFetchResponse.Merge` drops the returned error aggregate (the source
reads `// TODO: Normal error handling`), so the fetch aggregate's error
aggregate stays empty and `HaveFatalErrors` remains false, contrary to the
spec's error-propagation clause. -/
theorem serverFetch_drops_reconciler_error :
    ((MergeFetchResponses (⟨"m", 0, 300, 60, "avg", 0, 0, 300, [some 1], []⟩)
        (⟨"m", 60, 300, 60, "avg", 0, 0, 300, [some 2], []⟩) "id").2.2 =
      ⟨[MergeError.responseStartTimeMismatch], false⟩) ∧
    ((ServerFetchResponse.Merge exFetchFirst exFetchSecond "id").1.Err =
      some Errors.empty) ∧
    ((ServerFetchResponse.Merge exFetchFirst exFetchSecond "id").1.Response =
      some [⟨"m", 0, 300, 60, "avg", 0, 0, 300, [some 1], []⟩,
            ⟨"sib", 0, 300, 60, "avg", 0, 0, 300, [some 3], []⟩]) := by
  refine ⟨by decide, by decide, by decide⟩

/-! ## C7: tag merge -/

theorem tagMerge_response (first second : ServerTagResponse) (l1 l2 : List String)
    (h1 : first.Response = some l1) (h2 : second.Response = some l2) :
    (first.Merge second).1.Response =
      some (l1 ++ l2.filter (fun v => decide (v ∉ l1))) := by
  unfold ServerTagResponse.Merge
  simp [h1, h2]

/-- C7 (amended): when both name lists are duplicate-free,
`ServerTagResponse.Merge` makes the first response's list the order-preserving
set union: no duplicates, the first list kept as a prefix, and the second
list's names not already present appended in the second list's order.  (The
duplicate-freedom of the second list is required: the membership set is built
from the first list only and never updated, so duplicates inside the second
list would all be appended.) -/
theorem tagMerge_union (first second : ServerTagResponse) (l1 l2 : List String)
    (h1 : first.Response = some l1) (h2 : second.Response = some l2)
    (hnd1 : l1.Nodup) (hnd2 : l2.Nodup) :
    ∃ r, (first.Merge second).1.Response = some r ∧ r.Nodup ∧
      (∀ x, x ∈ r ↔ x ∈ l1 ∨ x ∈ l2) ∧
      r.take l1.length = l1 ∧
      r.drop l1.length = l2.filter (fun v => decide (v ∉ l1)) := by
  refine ⟨l1 ++ l2.filter (fun v => decide (v ∉ l1)),
    tagMerge_response first second l1 l2 h1 h2, ?_, ?_, ?_, ?_⟩
  · refine List.Nodup.append hnd1 (hnd2.filter _) ?_
    intro x hx1 hx2
    have := List.of_mem_filter hx2
    simp at this
    exact this hx1
  · intro x
    simp only [List.mem_append, List.mem_filter, decide_eq_true_eq]
    constructor
    · rintro (hx | ⟨hx, _⟩)
      · exact Or.inl hx
      · exact Or.inr hx
    · rintro (hx | hx)
      · exact Or.inl hx
      · by_cases hmem : x ∈ l1
        · exact Or.inl hmem
        · exact Or.inr ⟨hx, hmem⟩
  · exact List.take_left l1 _
  · exact List.drop_left l1 _

/-- C7 counterexample: with a duplicate-free first list ["a"] and a non-nil
second list ["c", "c"], the merged list is ["a", "c", "c"] — the name "c"
appears twice, so the result is not a duplicate-free set union. -/
theorem tagMerge_union_cex :
    (["a"] : List String).Nodup ∧
    ((ServerTagResponse.Merge ⟨"", some ["a"], some Errors.empty⟩
        ⟨"", some ["c", "c"], none⟩).1.Response = some ["a", "c", "c"]) ∧
    ¬ (["a", "c", "c"] : List String).Nodup := by
  refine ⟨by decide, rfl, by decide⟩

/-- Witness for C7 (amended) at the spec's example: A=["a","b"], B=["b","c"]
merges to ["a","b","c"]. -/
theorem tagMerge_union_witness :
    (∃ r, ((ServerTagResponse.Merge ⟨"", some ["a", "b"], some Errors.empty⟩
          ⟨"", some ["b", "c"], none⟩).1.Response = some r) ∧ r.Nodup ∧
      (∀ x, x ∈ r ↔ x ∈ ["a", "b"] ∨ x ∈ ["b", "c"]) ∧
      r.take (["a", "b"] : List String).length = ["a", "b"] ∧
      r.drop (["a", "b"] : List String).length =
        ["b", "c"].filter (fun v => decide (v ∉ (["a", "b"] : List String)))) ∧
    ((ServerTagResponse.Merge ⟨"", some ["a", "b"], some Errors.empty⟩
        ⟨"", some ["b", "c"], none⟩).1.Response = some ["a", "b", "c"]) :=
  ⟨tagMerge_union ⟨"", some ["a", "b"], some Errors.empty⟩
      ⟨"", some ["b", "c"], none⟩ ["a", "b"] ["b", "c"] rfl rfl
      (by decide) (by decide), rfl⟩

/-! ## C8: info merge is last-write-wins per key -/

theorem mapGet_map_set (m : List (String × MetricsInfo)) (k : String) (v : MetricsInfo) :
    mapGet (m.map (fun p => if p.1 = k then (k, v) else p)) k =
      if (mapGet m k).isSome then some v else none := by
  induction m with
  | nil => simp [mapGet]
  | cons p rest ih =>
      by_cases hp : p.1 = k
      · simp [mapGet, hp]
      · simp [mapGet, hp, ih]

theorem mapGet_append_single (m : List (String × MetricsInfo)) (k : String)
    (v : MetricsInfo) (h : mapGet m k = none) :
    mapGet (m ++ [(k, v)]) k = some v := by
  induction m with
  | nil => simp [mapGet]
  | cons p rest ih =>
      by_cases hp : p.1 = k
      · simp [mapGet, hp] at h
      · simp [mapGet, hp] at h ⊢
        exact ih h

theorem mapGet_mapSet_self (m : List (String × MetricsInfo)) (k : String)
    (v : MetricsInfo) : mapGet (mapSet m k v) k = some v := by
  unfold mapSet
  by_cases h : (mapGet m k).isSome
  · simp [h, mapGet_map_set]
  · have hnone : mapGet m k = none := by
      cases hg : mapGet m k
      · rfl
      · simp [hg] at h
    simp [h, mapGet_append_single m k v hnone]

theorem mapGet_map_set_other (m : List (String × MetricsInfo)) (k k' : String)
    (v : MetricsInfo) (hne : k' ≠ k) :
    mapGet (m.map (fun p => if p.1 = k then (k, v) else p)) k' = mapGet m k' := by
  induction m with
  | nil => rfl
  | cons p rest ih =>
      by_cases hp : p.1 = k
      · have hp' : ¬ p.1 = k' := fun hc => hne (hc ▸ hp)
        have hk' : ¬ k = k' := fun hc => hne hc.symm
        simp [mapGet, hp, hp', hk', ih]
      · by_cases hp' : p.1 = k'
        · simp [mapGet, hp, hp', hne]
        · simp [mapGet, hp, hp', ih]

theorem mapGet_append_other (m : List (String × MetricsInfo)) (k k' : String)
    (v : MetricsInfo) (hne : k' ≠ k) :
    mapGet (m ++ [(k, v)]) k' = mapGet m k' := by
  induction m with
  | nil =>
      simp only [List.nil_append, mapGet]
      rw [if_neg (fun hc => hne hc.symm)]
  | cons p rest ih =>
      by_cases hp' : p.1 = k'
      · simp [mapGet, hp']
      · simp [mapGet, hp', ih]

theorem mapGet_mapSet_other (m : List (String × MetricsInfo)) (k k' : String)
    (v : MetricsInfo) (hne : k' ≠ k) :
    mapGet (mapSet m k v) k' = mapGet m k' := by
  unfold mapSet
  by_cases h : (mapGet m k).isSome
  · simp only [h, if_true]
    exact mapGet_map_set_other m k k' v hne
  · simp only [h, if_false]
    exact mapGet_append_other m k k' v hne

/-- Folding the stores of a list whose keys avoid `k` does not change the
binding of `k`. -/
theorem mapGet_fold_not_mem (L : List (String × MetricsInfo))
    (m : List (String × MetricsInfo)) (k : String) (h : k ∉ L.map Prod.fst) :
    mapGet (L.foldl (fun acc p => mapSet acc p.1 p.2) m) k = mapGet m k := by
  induction L generalizing m with
  | nil => rfl
  | cons p rest ih =>
      simp only [List.map_cons, List.mem_cons] at h
      push_neg at h
      simp only [List.foldl_cons]
      rw [ih (mapSet m p.1 p.2) h.2, mapGet_mapSet_other m p.1 k p.2 h.1]

/-- Folding the stores of a duplicate-free-keyed list binds each of its keys
to its listed value. -/
theorem mapGet_fold_mem (L : List (String × MetricsInfo))
    (m : List (String × MetricsInfo)) (k : String) (v : MetricsInfo)
    (hnd : (L.map Prod.fst).Nodup) (h : (k, v) ∈ L) :
    mapGet (L.foldl (fun acc p => mapSet acc p.1 p.2) m) k = some v := by
  induction L generalizing m with
  | nil => simp at h
  | cons p rest ih =>
      simp only [List.map_cons, List.nodup_cons] at hnd
      simp only [List.mem_cons] at h
      simp only [List.foldl_cons]
      rcases h with h | h
      · subst h
        have hk : k ∉ rest.map Prod.fst := hnd.1
        rw [mapGet_fold_not_mem rest _ k hk, mapGet_mapSet_self]
      · exact ih (mapSet m p.1 p.2) hnd.2 h

theorem infoMerge_response_some (first second : ServerInfoResponse)
    (resp2 : ZipperInfoResponse) (h2 : second.Response = some resp2) :
    (first.Merge second).1.Response =
      some ⟨resp2.Info.foldl (fun acc p => mapSet acc p.1 p.2)
              ((first.Response.map ZipperInfoResponse.Info).getD [])⟩ := by
  unfold ServerInfoResponse.Merge
  cases hstat : second.Stats <;> simp [hstat, h2]

theorem infoMerge_response_none (first second : ServerInfoResponse)
    (h2 : second.Response = none) :
    (first.Merge second).1.Response = first.Response := by
  unfold ServerInfoResponse.Merge
  cases hstat : second.Stats <;> simp [hstat, h2]

/-- C8: `ServerInfoResponse.Merge` is last-write-wins per key: every key of
the second response's map ends up bound to the second response's value, keys
absent from the second response's map keep the first response's binding, and
a nil second response leaves the first response's map untouched. -/
theorem infoMerge_lastWriteWins (first second : ServerInfoResponse) :
    (∀ resp2 k v, second.Response = some resp2 →
        (resp2.Info.map Prod.fst).Nodup → (k, v) ∈ resp2.Info →
        mapGet (((first.Merge second).1.Response.map ZipperInfoResponse.Info).getD []) k
          = some v) ∧
    (∀ resp2 k, second.Response = some resp2 → k ∉ resp2.Info.map Prod.fst →
        mapGet (((first.Merge second).1.Response.map ZipperInfoResponse.Info).getD []) k
          = mapGet ((first.Response.map ZipperInfoResponse.Info).getD []) k) ∧
    (second.Response = none → (first.Merge second).1.Response = first.Response) := by
  refine ⟨?_, ?_, infoMerge_response_none first second⟩
  · intro resp2 k v h2 hnd hmem
    rw [infoMerge_response_some first second resp2 h2]
    exact mapGet_fold_mem resp2.Info _ k v hnd hmem
  · intro resp2 k h2 hnotin
    rw [infoMerge_response_some first second resp2 h2]
    exact mapGet_fold_not_mem resp2.Info _ k hnotin

/-- Witness for C8 at the spec's example: merging a map binding "m1" to X
with a map binding "m1" to Y yields a map binding "m1" to Y. -/
theorem infoMerge_lastWriteWins_witness :
    mapGet (((ServerInfoResponse.Merge
        ⟨"", some ⟨[("m1", ⟨1⟩)]⟩, none, some Errors.empty⟩
        ⟨"", some ⟨[("m1", ⟨2⟩)]⟩, none, none⟩).1.Response.map
          ZipperInfoResponse.Info).getD []) "m1" = some ⟨2⟩ :=
  (infoMerge_lastWriteWins
      ⟨"", some ⟨[("m1", ⟨1⟩)]⟩, none, some Errors.empty⟩
      ⟨"", some ⟨[("m1", ⟨2⟩)]⟩, none, none⟩).1
    ⟨[("m1", ⟨2⟩)]⟩ "m1" ⟨2⟩ rfl (by decide) (by decide)

/-! ## C9: what the tag/info/find merges return -/

/-- C9 (amended): each of the tag, info and find `Merge` operations stores
the merged error aggregate (second operand's errors appended, fatal flags
ORed) in the receiver's `Err` field, and returns that merged aggregate only
when the second operand's response body is nil; when the body is non-nil the
operation returns nil instead. -/
theorem merge_returns_mergedErr (t1 t2 : ServerTagResponse)
    (i1 i2 : ServerInfoResponse) (f1 f2 : ServerFindResponse) :
    ((t1.Merge t2).2 = if t2.Response = none
        then some ((t1.Err.getD Errors.empty).merge t2.Err) else none) ∧
    ((t1.Merge t2).1.Err = some ((t1.Err.getD Errors.empty).merge t2.Err)) ∧
    ((i1.Merge i2).2 = if i2.Response = none
        then some ((i1.Err.getD Errors.empty).merge i2.Err) else none) ∧
    ((i1.Merge i2).1.Err = some ((i1.Err.getD Errors.empty).merge i2.Err)) ∧
    ((f1.Merge f2).2 = if f2.Response = none
        then some ((f1.Err.getD Errors.empty).merge f2.Err) else none) ∧
    ((f1.Merge f2).1.Err = some ((f1.Err.getD Errors.empty).merge f2.Err)) := by
  unfold ServerTagResponse.Merge ServerInfoResponse.Merge ServerFindResponse.Merge
  refine ⟨?_, ?_, ?_, ?_, ?_, ?_⟩
  all_goals cases t2.Response <;> cases hi : i2.Response <;> cases hf : f2.Response <;>
    cases i2.Stats <;> cases f2.Stats <;> simp [hi, hf]

/-- C9 counterexample: a tag merge whose second operand has a non-nil name
list returns nil, not the merged error aggregate. -/
theorem merge_returns_mergedErr_cex :
    ((ServerTagResponse.Merge
        ⟨"", some ["a"], some ⟨[MergeError.responseStartTimeMismatch], true⟩⟩
        ⟨"", some ["b"], none⟩).2 = none) ∧
    ((⟨"", some ["b"], none⟩ : ServerTagResponse).Response ≠ none) ∧
    (∀ e : Errors, (none : Option Errors) ≠ some e) := by
  refine ⟨rfl, by decide, fun e h => by cases h⟩

/-! ## C6: find merge

The reference specification below transcribes the amended C6 claim: entries of
the second response whose name is not yet in the first response are appended
whole; for an entry whose name already exists, exactly those match entries
whose concatenated key `name ++ "." ++ path` was not already seen are appended
to the existing entry, in the second response's order, with each appended key
recorded. -/

/-- Amended-claim transcription: the matches of one second-response entry that
survive, given the seen-key set; returns the surviving matches in order and
the grown seen-key set. -/
def unseenMatches (name : String) (seen : List String) :
    List GlobMatch → List GlobMatch × List String
  | [] => ([], seen)
  | mm :: rest =>
      let key := name ++ "." ++ mm.Path
      if key ∈ seen then unseenMatches name seen rest
      else
        let r := unseenMatches name (key :: seen) rest
        (mm :: r.1, r.2)

/-- Append extra matches to every entry called `name` (the entry is unique
when the first response's names are duplicate-free). -/
def extendEntry (ms : List GlobMetric) (name : String) (extra : List GlobMatch) :
    List GlobMetric :=
  ms.map (fun e => if e.Name = name then { e with Matches := e.Matches ++ extra } else e)

/-- Amended-claim transcription of the whole find merge: walk the second
response's entries in order; a name not among the first response's names is
appended whole, an existing name has its novel-keyed matches appended to its
entry. -/
def findMergeRef (fnames : List String) :
    List GlobMetric → List String → List GlobMetric → List GlobMetric
  | acc, _, [] => acc
  | acc, seen, m :: rest =>
      if m.Name ∈ fnames then
        let r := unseenMatches m.Name seen m.Matches
        findMergeRef fnames (extendEntry acc m.Name r.1) r.2 rest
      else
        findMergeRef fnames (acc ++ [m]) seen rest

theorem globGet_map (f : GlobMetric → GlobMetric) (l : List GlobMetric) (j : Nat) :
    (l.map f).get? j = (l.get? j).map f := by
  induction l generalizing j with
  | nil => cases j <;> rfl
  | cons x rest ih => cases j with
      | zero => rfl
      | succ n => simp [ih n]

theorem stringGet_inj (l : List String) (hnd : l.Nodup) (j j' : Nat) (name : String)
    (hj : l.get? j = some name) (hj' : l.get? j' = some name) : j = j' := by
  induction l generalizing j j' with
  | nil => simp at hj
  | cons x rest ih =>
      cases hnd with
      | cons hx hrest =>
        cases j with
        | zero =>
            cases j' with
            | zero => rfl
            | succ n' =>
                simp only [List.get?_cons_zero, Option.some.injEq] at hj
                simp only [List.get?_cons_succ] at hj'
                exact (hx name (List.get?_mem hj') hj).elim
        | succ n =>
            cases j' with
            | zero =>
                simp only [List.get?_cons_zero, Option.some.injEq] at hj'
                simp only [List.get?_cons_succ] at hj
                exact (hx name (List.get?_mem hj) hj').elim
            | succ n' =>
                simp only [List.get?_cons_succ] at hj hj'
                exact congrArg Nat.succ (ih hrest n n' hj hj')

theorem seenMetricsIdx_none_iff (ms : List GlobMetric) (name : String) :
    seenMetricsIdx ms name = none ↔ name ∉ ms.map GlobMetric.Name := by
  induction ms with
  | nil => simp [seenMetricsIdx]
  | cons e rest ih =>
      simp only [seenMetricsIdx, List.map_cons, List.mem_cons]
      cases hrest : seenMetricsIdx rest name with
      | some j =>
          have hmem : name ∈ rest.map GlobMetric.Name := by
            by_contra hc
            rw [ih.mpr hc] at hrest
            cases hrest
          simp [hmem]
      | none =>
          by_cases he : e.Name = name
          · simp [he]
          · have hne : ¬ name = e.Name := fun hc => he hc.symm
            simp [he, hne, ih.mp hrest]

theorem seenMetricsIdx_name (ms : List GlobMetric) (name : String) (j : Nat)
    (h : seenMetricsIdx ms name = some j) :
    (ms.get? j).map GlobMetric.Name = some name := by
  induction ms generalizing j with
  | nil => simp [seenMetricsIdx] at h
  | cons e rest ih =>
      simp only [seenMetricsIdx] at h
      cases hrest : seenMetricsIdx rest name with
      | some j' =>
          rw [hrest] at h
          cases h
          simpa using ih j' hrest
      | none =>
          rw [hrest] at h
          by_cases he : e.Name = name
          · simp only [he, if_true, Option.some.injEq] at h
            subst h
            simp [he]
          · simp [he] at h

theorem extendEntry_nil (ms : List GlobMetric) (name : String) :
    extendEntry ms name [] = ms := by
  induction ms with
  | nil => rfl
  | cons e rest ih =>
      simp only [extendEntry, List.map_cons] at ih ⊢
      rw [ih]
      cases e with
      | mk nm ml => by_cases he : nm = name <;> simp [he]

theorem extendEntry_extendEntry (ms : List GlobMetric) (name : String)
    (L1 L2 : List GlobMatch) :
    extendEntry (extendEntry ms name L1) name L2 = extendEntry ms name (L1 ++ L2) := by
  induction ms with
  | nil => rfl
  | cons e rest ih =>
      simp only [extendEntry, List.map_cons] at ih ⊢
      rw [ih]
      cases e with
      | mk nm ml =>
        by_cases he : nm = name
        · subst he
          simp
        · simp [he]

theorem extendEntry_id_of_absent (ms : List GlobMetric) (name : String)
    (L : List GlobMatch) (h : ∀ e ∈ ms, e.Name ≠ name) :
    extendEntry ms name L = ms := by
  induction ms with
  | nil => rfl
  | cons e rest ih =>
      have he : e.Name ≠ name := h e (List.mem_cons_self e rest)
      have hrest : ∀ e' ∈ rest, e'.Name ≠ name :=
        fun e' he' => h e' (List.mem_cons_of_mem e he')
      simp only [extendEntry, List.map_cons, if_neg he]
      simpa [extendEntry] using ih hrest

theorem extendEntry_get_name (ms : List GlobMetric) (name : String)
    (L : List GlobMatch) (j : Nat) :
    ((extendEntry ms name L).get? j).map GlobMetric.Name =
      (ms.get? j).map GlobMetric.Name := by
  unfold extendEntry
  rw [globGet_map]
  cases ms.get? j with
  | none => rfl
  | some e => by_cases he : e.Name = name <;> simp [he]

theorem extendEntry_length (ms : List GlobMetric) (name : String) (L : List GlobMatch) :
    (extendEntry ms name L).length = ms.length := by
  simp [extendEntry]

theorem appendMatchAt_get_name (ms : List GlobMetric) (i j : Nat) (mm : GlobMatch) :
    ((appendMatchAt ms i mm).get? j).map GlobMetric.Name =
      (ms.get? j).map GlobMetric.Name := by
  induction ms generalizing i j with
  | nil => cases i <;> rfl
  | cons e rest ih =>
      cases i with
      | zero =>
          cases j with
          | zero => simp [appendMatchAt]
          | succ n => simp [appendMatchAt]
      | succ n =>
          cases j with
          | zero => simp [appendMatchAt]
          | succ n' => simpa [appendMatchAt] using ih n n'

theorem appendMatchAt_eq_extendEntry (ms : List GlobMetric) (i : Nat)
    (name : String) (mm : GlobMatch)
    (hname : (ms.get? i).map GlobMetric.Name = some name)
    (huniq : ∀ j e, ms.get? j = some e → e.Name = name → j = i) :
    appendMatchAt ms i mm = extendEntry ms name [mm] := by
  induction ms generalizing i with
  | nil => simp at hname
  | cons e rest ih =>
      cases i with
      | zero =>
          simp only [List.get?_cons_zero, Option.map_some', Option.some.injEq] at hname
          have hrest : ∀ e' ∈ rest, e'.Name ≠ name := by
            intro e' he' hc
            obtain ⟨n, hn⟩ := List.get?_of_mem he'
            exact Nat.succ_ne_zero n (huniq (n + 1) e' (by simpa using hn) hc)
          have h2 := extendEntry_id_of_absent rest name [mm] hrest
          simp only [appendMatchAt, extendEntry, List.map_cons, if_pos hname]
          unfold extendEntry at h2
          rw [h2]
      | succ n =>
          simp only [List.get?_cons_succ] at hname
          have he : e.Name ≠ name := by
            intro hc
            exact Nat.succ_ne_zero n (huniq 0 e rfl hc).symm
          simp only [appendMatchAt, extendEntry, List.map_cons, if_neg he]
          congr 1
          have huniq' : ∀ j e', rest.get? j = some e' → e'.Name = name → j = n := by
            intro j e' hj hc
            have := huniq (j + 1) e' (by simpa using hj) hc
            omega
          simpa [extendEntry] using ih n hname huniq'

/-- The source's inner match loop coincides with the amended-claim match
policy when the indexed entry is the unique entry carrying the name. -/
theorem findMatchLoop_eq (L : List GlobMatch) (ms : List GlobMetric)
    (seen : List String) (i : Nat) (name : String)
    (hname : (ms.get? i).map GlobMetric.Name = some name)
    (huniq : ∀ j e, ms.get? j = some e → e.Name = name → j = i) :
    findMatchLoop ms seen i L =
      (extendEntry ms name (unseenMatches name seen L).1,
       (unseenMatches name seen L).2) := by
  induction L generalizing ms seen with
  | nil =>
      show (ms, seen) = (extendEntry ms name [], seen)
      rw [extendEntry_nil]
  | cons mm rest ih =>
      have hat : nameAt ms i = name := by
        unfold nameAt
        rw [hname]
        rfl
      by_cases hkey : name ++ "." ++ mm.Path ∈ seen
      · simp only [findMatchLoop, unseenMatches, hat, if_pos hkey]
        exact ih ms seen hname huniq
      · simp only [findMatchLoop, unseenMatches, hat, if_neg hkey]
        have hname' : ((appendMatchAt ms i mm).get? i).map GlobMetric.Name = some name := by
          rw [appendMatchAt_get_name]
          exact hname
        have huniq' : ∀ j e, (appendMatchAt ms i mm).get? j = some e →
            e.Name = name → j = i := by
          intro j e' hj hc
          have hn : ((appendMatchAt ms i mm).get? j).map GlobMetric.Name = some name := by
            rw [hj]
            simpa using hc
          rw [appendMatchAt_get_name] at hn
          cases hg : ms.get? j with
          | none => rw [hg] at hn; cases hn
          | some e'' =>
              rw [hg] at hn
              simp only [Option.map_some', Option.some.injEq] at hn
              exact huniq j e'' hg hn
        rw [ih (appendMatchAt ms i mm) ((name ++ "." ++ mm.Path) :: seen) hname' huniq']
        rw [appendMatchAt_eq_extendEntry ms i name mm hname huniq,
            extendEntry_extendEntry]
        rfl

theorem nameGet_map (l : List GlobMetric) (j : Nat) :
    (l.map GlobMetric.Name).get? j = (l.get? j).map GlobMetric.Name := by
  induction l generalizing j with
  | nil => cases j <;> rfl
  | cons x rest ih => cases j with
      | zero => rfl
      | succ n => simp [ih n]

/-- The find-merge loop invariant: the evolving metric list extends the first
response's original metric list — same length or longer, names at original
positions unchanged, and every appended entry carries a name absent from the
original list. -/
def extendsNames (F ms : List GlobMetric) : Prop :=
  F.length ≤ ms.length ∧
  (∀ j, j < F.length →
    (ms.get? j).map GlobMetric.Name = (F.get? j).map GlobMetric.Name) ∧
  (∀ j e, F.length ≤ j → ms.get? j = some e → e.Name ∉ F.map GlobMetric.Name)

theorem extendsNames_refl (F : List GlobMetric) : extendsNames F F := by
  refine ⟨le_refl _, fun _ _ => rfl, ?_⟩
  intro j e hj hje
  rw [List.get?_eq_none.mpr hj] at hje
  cases hje

theorem extendsNames_append (F ms : List GlobMetric) (m : GlobMetric)
    (h : extendsNames F ms) (hm : m.Name ∉ F.map GlobMetric.Name) :
    extendsNames F (ms ++ [m]) := by
  obtain ⟨hlen, hpre, htail⟩ := h
  refine ⟨by simp; omega, ?_, ?_⟩
  · intro j hj
    rw [List.get?_append (lt_of_lt_of_le hj hlen)]
    exact hpre j hj
  · intro j e hj hje
    by_cases hcase : j < ms.length
    · rw [List.get?_append hcase] at hje
      exact htail j e hj hje
    · push_neg at hcase
      rw [List.get?_append_right hcase] at hje
      cases hd : j - ms.length with
      | zero =>
          rw [hd] at hje
          simp only [List.get?_cons_zero, Option.some.injEq] at hje
          rw [← hje]
          exact hm
      | succ k =>
          rw [hd] at hje
          cases hje

theorem extendsNames_extendEntry (F ms : List GlobMetric) (name : String)
    (L : List GlobMatch) (h : extendsNames F ms) :
    extendsNames F (extendEntry ms name L) := by
  obtain ⟨hlen, hpre, htail⟩ := h
  refine ⟨by rwa [extendEntry_length], ?_, ?_⟩
  · intro j hj
    rw [extendEntry_get_name]
    exact hpre j hj
  · intro j e hj hje
    have hn := extendEntry_get_name ms name L j
    rw [hje] at hn
    cases hg : ms.get? j with
    | none => rw [hg] at hn; cases hn
    | some e' =>
        rw [hg] at hn
        simp only [Option.map_some', Option.some.injEq] at hn
        rw [hn]
        exact htail j e' hj hg

theorem idx_unique_of_extends (F ms : List GlobMetric)
    (hnd : (F.map GlobMetric.Name).Nodup) (hext : extendsNames F ms)
    (name : String) (i : Nat) (hidx : seenMetricsIdx F name = some i) :
    (ms.get? i).map GlobMetric.Name = some name ∧
    ∀ j e, ms.get? j = some e → e.Name = name → j = i := by
  obtain ⟨hlen, hpre, htail⟩ := hext
  have hFi : (F.get? i).map GlobMetric.Name = some name :=
    seenMetricsIdx_name F name i hidx
  have hiF : i < F.length := by
    by_contra hc
    push_neg at hc
    rw [List.get?_eq_none.mpr hc] at hFi
    cases hFi
  have hmem : name ∈ F.map GlobMetric.Name := by
    apply List.get?_mem (n := i)
    rw [nameGet_map]
    exact hFi
  refine ⟨by rw [hpre i hiF]; exact hFi, ?_⟩
  intro j e hj hje
  by_cases hcase : j < F.length
  · have h1 : (F.map GlobMetric.Name).get? j = some name := by
      rw [nameGet_map]
      rw [← hpre j hcase, hj]
      simp [hje]
    have h2 : (F.map GlobMetric.Name).get? i = some name := by
      rw [nameGet_map]
      exact hFi
    exact stringGet_inj (F.map GlobMetric.Name) hnd j i name h1 h2
  · push_neg at hcase
    exact absurd (hje ▸ hmem) (htail j e hcase hj)

/-- The source's find-merge metric loop coincides with the amended-claim
reference merge whenever the first response's names are duplicate-free. -/
theorem findLoop_eq_ref (F : List GlobMetric) (hnd : (F.map GlobMetric.Name).Nodup)
    (S ms : List GlobMetric) (seen : List String) (hext : extendsNames F ms) :
    (findMetricsLoop (seenMetricsIdx F) (ms, seen) S).1 =
      findMergeRef (F.map GlobMetric.Name) ms seen S := by
  induction S generalizing ms seen with
  | nil => rfl
  | cons m rest ih =>
      cases hidx : seenMetricsIdx F m.Name with
      | none =>
          have hnot : m.Name ∉ F.map GlobMetric.Name :=
            (seenMetricsIdx_none_iff F m.Name).mp hidx
          simp only [findMetricsLoop, hidx, findMergeRef, if_neg hnot]
          exact ih (ms ++ [m]) seen (extendsNames_append F ms m hext hnot)
      | some i =>
          have hmem : m.Name ∈ F.map GlobMetric.Name := by
            by_contra hc
            rw [(seenMetricsIdx_none_iff F m.Name).mpr hc] at hidx
            cases hidx
          obtain ⟨hname, huniq⟩ := idx_unique_of_extends F ms hnd hext m.Name i hidx
          simp only [findMetricsLoop, hidx, findMergeRef, if_pos hmem]
          rw [findMatchLoop_eq m.Matches ms seen i m.Name hname huniq]
          exact ih _ _ (extendsNames_extendEntry F ms m.Name _ hext)

theorem findMerge_response_some (first second : ServerFindResponse)
    (resp2 : MultiGlobResponse) (h2 : second.Response = some resp2) :
    (first.Merge second).1.Response =
      some ⟨mergeGlobMetrics ((first.Response.map MultiGlobResponse.Metrics).getD [])
              resp2.Metrics⟩ := by
  unfold ServerFindResponse.Merge
  cases hstat : second.Stats <;> simp [hstat, h2]

/-- C6 (amended): for `ServerFindResponse.Merge` with a non-nil second
response and duplicate-free first-response names, the merged metric list
follows the reference policy `findMergeRef`: entries of the second response
whose name is not yet in the first response are appended whole, entries with
an existing name have exactly those match entries appended, in the second
response's order, whose concatenated key `name ++ "." ++ path` was not
already seen; the first response's pre-existing entries and matches are never
modified or reordered.  (The original claim's dedup criterion "(metric-name,
match-path) pair" must be weakened to the concatenated key, which conflates
distinct pairs when names contain dots.) -/
theorem findMerge_two_level_union (first second : ServerFindResponse)
    (resp2 : MultiGlobResponse) (h2 : second.Response = some resp2)
    (hnd : (((first.Response.map MultiGlobResponse.Metrics).getD []).map
      GlobMetric.Name).Nodup) :
    (first.Merge second).1.Response =
      some ⟨findMergeRef
        (((first.Response.map MultiGlobResponse.Metrics).getD []).map GlobMetric.Name)
        ((first.Response.map MultiGlobResponse.Metrics).getD [])
        (initSeen ((first.Response.map MultiGlobResponse.Metrics).getD []))
        resp2.Metrics⟩ := by
  rw [findMerge_response_some first second resp2 h2]
  unfold mergeGlobMetrics
  rw [findLoop_eq_ref _ hnd resp2.Metrics _ _ (extendsNames_refl _)]

/-- First find response for the counterexample: an entry "a.b" with no
matches, and an entry "a" whose single match has path "b.c". -/
def exFindF : List GlobMetric := [⟨"a.b", []⟩, ⟨"a", [⟨"b.c", true⟩]⟩]

/-- Second find response for the counterexample: the existing name "a.b" with
a match at path "c" — the pair ("a.b", "c") occurs nowhere in the first
response, yet its concatenated key "a.b.c" collides with ("a", "b.c"). -/
def exFindS : List GlobMetric := [⟨"a.b", [⟨"c", true⟩]⟩]

/-- C6 counterexample: the match ("a.b", "c") of the second response is
dropped (the merged response equals the first response) even though the
(metric-name, match-path) pair ("a.b", "c") is not present in the first
response — the dedup key is the concatenated string "a.b.c", which the pair
("a", "b.c") already produced.  This falsifies "a match entry is dropped if
and only if its (metric-name, match-path) pair is already present". -/
theorem findMerge_two_level_union_cex :
    ((ServerFindResponse.Merge ⟨"", some ⟨exFindF⟩, none, some Errors.empty⟩
        ⟨"", some ⟨exFindS⟩, none, none⟩).1.Response = some ⟨exFindF⟩) ∧
    (∀ e ∈ exFindF, ∀ mm ∈ e.Matches, ¬ (e.Name = "a.b" ∧ mm.Path = "c")) := by
  refine ⟨by decide, by decide⟩

/-- Witness for C6 (amended) at a pair exercising both the append-whole and
the extend-existing branches. -/
theorem findMerge_two_level_union_witness :
    ((ServerFindResponse.Merge
        ⟨"", some ⟨[⟨"x", [⟨"p", true⟩]⟩]⟩, none, some Errors.empty⟩
        ⟨"", some ⟨[⟨"x", [⟨"p", false⟩, ⟨"q", true⟩]⟩, ⟨"y", [⟨"r", true⟩]⟩]⟩,
         none, none⟩).1.Response =
      some ⟨findMergeRef ["x"] [⟨"x", [⟨"p", true⟩]⟩]
        (initSeen [⟨"x", [⟨"p", true⟩]⟩])
        [⟨"x", [⟨"p", false⟩, ⟨"q", true⟩]⟩, ⟨"y", [⟨"r", true⟩]⟩]⟩) ∧
    (findMergeRef ["x"] [⟨"x", [⟨"p", true⟩]⟩]
        (initSeen [⟨"x", [⟨"p", true⟩]⟩])
        [⟨"x", [⟨"p", false⟩, ⟨"q", true⟩]⟩, ⟨"y", [⟨"r", true⟩]⟩] =
      [⟨"x", [⟨"p", true⟩, ⟨"q", true⟩]⟩, ⟨"y", [⟨"r", true⟩]⟩]) :=
  ⟨findMerge_two_level_union
      ⟨"", some ⟨[⟨"x", [⟨"p", true⟩]⟩]⟩, none, some Errors.empty⟩
      ⟨"", some ⟨[⟨"x", [⟨"p", false⟩, ⟨"q", true⟩]⟩, ⟨"y", [⟨"r", true⟩]⟩]⟩,
       none, none⟩
      ⟨[⟨"x", [⟨"p", false⟩, ⟨"q", true⟩]⟩, ⟨"y", [⟨"r", true⟩]⟩]⟩ rfl (by decide),
   by decide⟩

end Carbonapi
